import Mathlib

/-!
Verification development for the CKPI Multi-KPI Analyzer (`app.py`).

The core logic of the program is embedded shallowly:

* `KPI_THRESHOLDS` / `thresholdLookup` — the fixed threshold catalog and the
  lookup `KPI_THRESHOLDS.get(kpi_name.lower(), (None, None))`.
* `detect_peaks_lows` — the peak/low detector.  Missing entries (`NaN` in the
  NumPy array) are modelled as `none`; numeric values as rationals.  The source
  compares `b` against `mean ± std_factor * std` where `std` is the square root
  of the population variance; since the square root of a rational is not
  rational, the embedded detector compares squares
  (`(b - mean)^2` against `std_factor^2 * var` together with the sign of
  `b - mean`), and the lemma `exceedsUpper_iff_real` / `belowLower_iff_real`
  proves this equivalent to the source's comparison against
  `mean ± std_factor * sqrt var` over the reals.
* `kpi_summary` — the per-(KPI, floor) aggregation loop of the script.  The
  script sorts each group's rows with pandas `sort_values` (whose default
  algorithm is not stable); the embedding uses a stable insertion sort on
  timestamps, which only affects the order of equal-timestamp rows.
* `report_rows` / `solution_map` — the actionable-insight report loop.
-/

/-- Python's `str.lower()` on the ASCII identifiers this program uses:
lowercase every character. -/
def strLower (s : String) : String := String.mk (s.data.map Char.toLower)

/-- The fixed threshold catalog of the script (`KPI_THRESHOLDS`), keys exactly
as written in the source (note the mixed-case keys). -/
def KPI_THRESHOLDS : List (String × (Option ℚ × Option ℚ)) :=
  [("doorfriction", (some 30, some 50)),
   ("cumulativeDoorSpeedError", (some (5/100), some (8/100))),
   ("lockHookClosingTime", (some (2/10), some (6/10))),
   ("lockHookTime", (some (3/10), none)),
   ("maximumForceDuringCompress", (some 5, some 28)),
   ("landingDoorLockRollerClearance", (none, some (29/1000)))]

/-- The catalog lookup of the source:
`KPI_THRESHOLDS.get(kpi_name.lower(), (None, None))` — the query is lowercased
and matched against the literal keys. -/
def thresholdLookup (name : String) : Option ℚ × Option ℚ :=
  match KPI_THRESHOLDS.find? (fun p => p.1 == strLower name) with
  | some p => p.2
  | none => (none, none)

/-- The non-missing values of the series (NumPy skips `NaN` entries in
`nanmean` / `nanstd`). -/
def nonMissing (vs : List (Option ℚ)) : List ℚ := vs.filterMap id

/-- `np.nanmean`: mean of the non-missing values. -/
def nanmean (vs : List (Option ℚ)) : ℚ :=
  (nonMissing vs).sum / (nonMissing vs).length

/-- Population variance of the non-missing values; `np.nanstd` is its square
root. -/
def nanvar (vs : List (Option ℚ)) : ℚ :=
  (((nonMissing vs).map (fun x => (x - nanmean vs) ^ 2)).sum) / (nonMissing vs).length

/-- `high_thresh is not None and b > high_thresh`. -/
def domHigh (high : Option ℚ) (b : ℚ) : Bool :=
  match high with
  | some h => decide (h < b)
  | none => false

/-- `low_thresh is not None and b < low_thresh`. -/
def domLow (low : Option ℚ) (b : ℚ) : Bool :=
  match low with
  | some h => decide (b < h)
  | none => false

/-- `b > mean + std_factor * std`, expressed without square roots:
`b - mean` is positive and its square exceeds `std_factor^2 * var`.
`exceedsUpper_iff_real` shows this matches the source's real-valued test. -/
def exceedsUpper (b mean v f : ℚ) : Bool :=
  decide (0 < b - mean) && decide (f ^ 2 * v < (b - mean) ^ 2)

/-- `b < mean - std_factor * std`, expressed without square roots. -/
def belowLower (b mean v f : ℚ) : Bool :=
  decide (0 < mean - b) && decide (f ^ 2 * v < (mean - b) ^ 2)

/-- The peak test of the loop body at index `i`:
`not isnan(a) and not isnan(b) and not isnan(c)` and
`b > a and b > c and ((high_thresh is not None and b > high_thresh) or b > upper_stat)`. -/
def isPeakAt (arr : List (Option ℚ)) (high : Option ℚ) (mean v f : ℚ) (i : ℕ) : Bool :=
  match arr.getD (i - 1) none, arr.getD i none, arr.getD (i + 1) none with
  | some a, some b, some c =>
      decide (a < b) && decide (c < b) && (domHigh high b || exceedsUpper b mean v f)
  | _, _, _ => false

/-- The low test of the loop body at index `i`. -/
def isLowAt (arr : List (Option ℚ)) (low : Option ℚ) (mean v f : ℚ) (i : ℕ) : Bool :=
  match arr.getD (i - 1) none, arr.getD i none, arr.getD (i + 1) none with
  | some a, some b, some c =>
      decide (b < a) && decide (b < c) && (domLow low b || belowLower b mean v f)
  | _, _, _ => false

/-- `detect_peaks_lows(values, low_thresh, high_thresh, std_factor)`:
guard `n < 3 or isnan(arr).all()`, then the loop
`for i in range(1, n-1)` appending `i` to `peaks` / `lows` when the
corresponding test fires. -/
def detect_peaks_lows (values : List (Option ℚ)) (low_thresh high_thresh : Option ℚ)
    (std_factor : ℚ) : List ℕ × List ℕ :=
  let arr := values
  let n := arr.length
  if n < 3 || arr.all Option.isNone then ([], []) else
  let mean := nanmean arr
  let v := nanvar arr
  (List.range' 1 (n - 2)).foldl
    (fun pl i =>
      (if isPeakAt arr high_thresh mean v std_factor i then pl.1 ++ [i] else pl.1,
       if isLowAt arr low_thresh mean v std_factor i then pl.2 ++ [i] else pl.2))
    ([], [])

/-- One input row after upstream parsing/filtering: timestamp, KPI name,
floor, equipment, numeric `ave` value (missing values as `none`). -/
structure Measurement where
  ts : ℤ
  kpi : String
  floor : ℤ
  eq : ℤ
  ave : Option ℚ
deriving DecidableEq

/-- One entry of the script's `kpi_summary` list. -/
structure GroupSummary where
  kpi : String
  floor : ℤ
  peaks : ℕ
  lows : ℕ
  rows : ℕ
deriving DecidableEq

/-- The per-KPI body of the aggregation loop: filter the rows to the KPI
(case-insensitively), enumerate the distinct floors in ascending order
(`sorted(df_kpi[floor_col].dropna().unique())`), and for each floor sort its
rows by timestamp and run the detector on the `ave` series. -/
def kpiBlock (rows : List Measurement) (f : ℚ) (kpi_name : String) : List GroupSummary :=
  let df_kpi := rows.filter (fun r => strLower r.kpi == strLower kpi_name)
  if df_kpi.isEmpty then [] else
  let floors := (df_kpi.map (fun r => r.floor)).dedup.insertionSort (fun a b => a ≤ b)
  floors.map (fun fl =>
    let df_floor := (df_kpi.filter (fun r => r.floor == fl)).insertionSort
      (fun r1 r2 => r1.ts ≤ r2.ts)
    let lh := thresholdLookup kpi_name
    let pl := detect_peaks_lows (df_floor.map (fun r => r.ave)) lh.1 lh.2 f
    ⟨kpi_name, fl, pl.1.length, pl.2.length, df_floor.length⟩)

/-- The script's `kpi_summary` accumulation: loop over the selected KPIs in
selection order, appending one summary per floor of each KPI. -/
def kpi_summary (rows : List Measurement) (sel : List String) (f : ℚ) : List GroupSummary :=
  sel.flatMap (kpiBlock rows f)

/-- The fixed `solution_map` of the script. -/
def solution_map : List (ℕ × String) :=
  [(1, "Follow solution 1"),
   (2, "Follow solution 2"),
   (3, "This is the reason for the error")]

/-- `solution_map.get(k)` — `none` when the code is absent. -/
def solutionGet (k : ℕ) : Option String :=
  (solution_map.find? (fun p => p.1 == k)).map (fun p => p.2)

/-- One row of the actionable-insight report. -/
structure InsightRow where
  kpi : String
  floor : ℤ
  action : String
  remedy : Option String
deriving DecidableEq

/-- The action text of the script. -/
def actionText : String := "⚠️ High uncertainty → Technician check"

/-- The report loop: for each summary, if `peaks + lows > rows * vRat`
(the script hardcodes `vRat = 0.2`), append a report row whose remedy is
`solution_map.get((peaks + lows) % 3 + 1)`. -/
def report_rows (summaries : List GroupSummary) (vRat : ℚ) : List InsightRow :=
  summaries.foldl
    (fun acc rec =>
      if ((rec.peaks : ℚ) + rec.lows > (rec.rows : ℚ) * vRat) then
        acc ++ [⟨rec.kpi, rec.floor, actionText,
                 solutionGet ((rec.peaks + rec.lows) % 3 + 1)⟩]
      else acc)
    []

/-! ### Characterization of the detector loop -/

/-- The accumulating loop of `detect_peaks_lows` builds the two lists of
indices passing the peak test and the low test, in loop order. -/
lemma foldl_pair_filter (p q : ℕ → Bool) (l : List ℕ) (acc : List ℕ × List ℕ) :
    l.foldl (fun pl i => (if p i then pl.1 ++ [i] else pl.1,
                          if q i then pl.2 ++ [i] else pl.2)) acc
      = (acc.1 ++ l.filter p, acc.2 ++ l.filter q) := by
  induction l generalizing acc with
  | nil => simp
  | cons x xs ih =>
      simp only [List.foldl_cons, List.filter_cons, ih]
      by_cases hp : p x <;> by_cases hq : q x <;> simp [hp, hq]

/-- Closed form of `detect_peaks_lows`: the guard, then the interior indices
passing each test, in ascending order. -/
lemma detect_peaks_lows_eq (vs : List (Option ℚ)) (lt ht : Option ℚ) (f : ℚ) :
    detect_peaks_lows vs lt ht f =
      if vs.length < 3 ∨ vs.all Option.isNone then ([], []) else
        ((List.range' 1 (vs.length - 2)).filter
            (isPeakAt vs ht (nanmean vs) (nanvar vs) f),
         (List.range' 1 (vs.length - 2)).filter
            (isLowAt vs lt (nanmean vs) (nanvar vs) f)) := by
  unfold detect_peaks_lows
  simp only [Bool.or_eq_true, decide_eq_true_eq]
  by_cases h : vs.length < 3 ∨ vs.all Option.isNone = true
  · rw [if_pos h, if_pos h]
  · rw [if_neg h, if_neg h, foldl_pair_filter]
    simp

/-- The population variance is nonnegative. -/
lemma nanvar_nonneg (vs : List (Option ℚ)) : 0 ≤ nanvar vs := by
  unfold nanvar
  apply div_nonneg
  · apply List.sum_nonneg
    intro x hx
    rcases List.mem_map.1 hx with ⟨y, _, rfl⟩
    positivity
  · positivity

/-- Comparison against a nonnegative quantity is equivalent to a sign test
plus a comparison of squares. -/
lemma lt_iff_pos_and_sq_lt {x y : ℝ} (hy : 0 ≤ y) :
    y < x ↔ 0 < x ∧ y ^ 2 < x ^ 2 := by
  constructor
  · intro h
    have hx : 0 < x := lt_of_le_of_lt hy h
    exact ⟨hx, by nlinarith⟩
  · rintro ⟨hx, hsq⟩
    by_contra hle
    push_neg at hle
    nlinarith

/-- The rational square comparison `exceedsUpper` decides exactly the
source's test `b > mean + std_factor * std` where `std = sqrt var`. -/
lemma exceedsUpper_iff_real (b m v f : ℚ) (hv : 0 ≤ v) (hf : 0 ≤ f) :
    exceedsUpper b m v f = true ↔ (m : ℝ) + f * Real.sqrt v < b := by
  have hy : (0 : ℝ) ≤ (f : ℝ) * Real.sqrt v :=
    mul_nonneg (by exact_mod_cast hf) (Real.sqrt_nonneg v)
  have hsq : ((f : ℝ) * Real.sqrt v) ^ 2 = (f : ℝ) ^ 2 * (v : ℝ) := by
    rw [mul_pow, Real.sq_sqrt (by exact_mod_cast hv)]
  have hiff : (m : ℝ) + f * Real.sqrt v < b ↔ (f : ℝ) * Real.sqrt v < (b : ℝ) - m := by
    constructor <;> intro h <;> linarith
  rw [hiff, lt_iff_pos_and_sq_lt hy, hsq]
  unfold exceedsUpper
  rw [Bool.and_eq_true, decide_eq_true_eq, decide_eq_true_eq]
  constructor
  · rintro ⟨h1, h2⟩
    constructor
    · have hc : ((0 : ℚ) : ℝ) < ((b - m : ℚ) : ℝ) := by exact_mod_cast h1
      push_cast at hc; linarith
    · have hc : ((f ^ 2 * v : ℚ) : ℝ) < (((b - m) ^ 2 : ℚ) : ℝ) := by exact_mod_cast h2
      push_cast at hc; linarith
  · rintro ⟨h1, h2⟩
    constructor
    · have hc : ((0 : ℚ) : ℝ) < ((b - m : ℚ) : ℝ) := by push_cast; linarith
      exact_mod_cast hc
    · have hc : ((f ^ 2 * v : ℚ) : ℝ) < (((b - m) ^ 2 : ℚ) : ℝ) := by push_cast; linarith
      exact_mod_cast hc

/-- The rational square comparison `belowLower` decides exactly the
source's test `b < mean - std_factor * std`. -/
lemma belowLower_iff_real (b m v f : ℚ) (hv : 0 ≤ v) (hf : 0 ≤ f) :
    belowLower b m v f = true ↔ (b : ℝ) < (m : ℝ) - f * Real.sqrt v := by
  have hy : (0 : ℝ) ≤ (f : ℝ) * Real.sqrt v :=
    mul_nonneg (by exact_mod_cast hf) (Real.sqrt_nonneg v)
  have hsq : ((f : ℝ) * Real.sqrt v) ^ 2 = (f : ℝ) ^ 2 * (v : ℝ) := by
    rw [mul_pow, Real.sq_sqrt (by exact_mod_cast hv)]
  have hiff : (b : ℝ) < (m : ℝ) - f * Real.sqrt v ↔ (f : ℝ) * Real.sqrt v < (m : ℝ) - b := by
    constructor <;> intro h <;> linarith
  rw [hiff, lt_iff_pos_and_sq_lt hy, hsq]
  unfold belowLower
  rw [Bool.and_eq_true, decide_eq_true_eq, decide_eq_true_eq]
  constructor
  · rintro ⟨h1, h2⟩
    constructor
    · have hc : ((0 : ℚ) : ℝ) < ((m - b : ℚ) : ℝ) := by exact_mod_cast h1
      push_cast at hc; linarith
    · have hc : ((f ^ 2 * v : ℚ) : ℝ) < (((m - b) ^ 2 : ℚ) : ℝ) := by exact_mod_cast h2
      push_cast at hc; linarith
  · rintro ⟨h1, h2⟩
    constructor
    · have hc : ((0 : ℚ) : ℝ) < ((m - b : ℚ) : ℝ) := by push_cast; linarith
      exact_mod_cast hc
    · have hc : ((f ^ 2 * v : ℚ) : ℝ) < (((m - b) ^ 2 : ℚ) : ℝ) := by push_cast; linarith
      exact_mod_cast hc

/-- `domHigh` holds exactly when the high threshold is defined and exceeded. -/
lemma domHigh_iff (ht : Option ℚ) (b : ℚ) :
    domHigh ht b = true ↔ ∃ h, ht = some h ∧ h < b := by
  cases ht <;> simp [domHigh]

/-- `domLow` holds exactly when the low threshold is defined and undershot. -/
lemma domLow_iff (lt : Option ℚ) (b : ℚ) :
    domLow lt b = true ↔ ∃ h, lt = some h ∧ b < h := by
  cases lt <;> simp [domLow]

/-- Membership in the peak list: the guard fails, the index is interior, and
the peak test passes. -/
lemma mem_detect_fst (vs : List (Option ℚ)) (lt ht : Option ℚ) (f : ℚ) (i : ℕ) :
    i ∈ (detect_peaks_lows vs lt ht f).1 ↔
      ¬(vs.length < 3 ∨ vs.all Option.isNone = true) ∧ 1 ≤ i ∧ i + 1 < vs.length ∧
        isPeakAt vs ht (nanmean vs) (nanvar vs) f i = true := by
  rw [detect_peaks_lows_eq]
  by_cases h : vs.length < 3 ∨ vs.all Option.isNone = true
  · rw [if_pos h]
    constructor
    · intro hmem
      exact absurd hmem (List.not_mem_nil i)
    · rintro ⟨hn, -⟩
      exact absurd h hn
  · have h3 : 3 ≤ vs.length := by omega
    simp only [if_neg h, List.mem_filter, List.mem_range'_1]
    constructor
    · rintro ⟨⟨hi1, hi2⟩, hp⟩
      exact ⟨h, hi1, by omega, hp⟩
    · rintro ⟨-, hi1, hi2, hp⟩
      exact ⟨⟨hi1, by omega⟩, hp⟩

/-- Membership in the low list: the guard fails, the index is interior, and
the low test passes. -/
lemma mem_detect_snd (vs : List (Option ℚ)) (lt ht : Option ℚ) (f : ℚ) (i : ℕ) :
    i ∈ (detect_peaks_lows vs lt ht f).2 ↔
      ¬(vs.length < 3 ∨ vs.all Option.isNone = true) ∧ 1 ≤ i ∧ i + 1 < vs.length ∧
        isLowAt vs lt (nanmean vs) (nanvar vs) f i = true := by
  rw [detect_peaks_lows_eq]
  by_cases h : vs.length < 3 ∨ vs.all Option.isNone = true
  · rw [if_pos h]
    constructor
    · intro hmem
      exact absurd hmem (List.not_mem_nil i)
    · rintro ⟨hn, -⟩
      exact absurd h hn
  · have h3 : 3 ≤ vs.length := by omega
    simp only [if_neg h, List.mem_filter, List.mem_range'_1]
    constructor
    · rintro ⟨⟨hi1, hi2⟩, hp⟩
      exact ⟨h, hi1, by omega, hp⟩
    · rintro ⟨-, hi1, hi2, hp⟩
      exact ⟨⟨hi1, by omega⟩, hp⟩

/-- A series with a non-missing entry is not all-missing. -/
lemma not_all_isNone_of_getD (vs : List (Option ℚ)) (i : ℕ) (b : ℚ)
    (hb : vs.getD i none = some b) : vs.all Option.isNone ≠ true := by
  intro hall
  rcases Nat.lt_or_ge i vs.length with hlt | hge
  · have hmem : vs[i] ∈ vs := List.getElem_mem hlt
    have hval : vs[i] = some b := by
      rw [List.getD_eq_getElem?_getD, List.getElem?_eq_getElem hlt] at hb
      simpa using hb
    have hnone := List.all_eq_true.1 hall _ hmem
    rw [hval] at hnone
    simp at hnone
  · rw [List.getD_eq_getElem?_getD, List.getElem?_eq_none hge] at hb
    simp at hb

/-- Reducing the peak test when all three entries are present. -/
lemma isPeakAt_of_values (arr : List (Option ℚ)) (ht : Option ℚ) (m v f : ℚ) (i : ℕ)
    (a b c : ℚ) (ha : arr.getD (i - 1) none = some a) (hb : arr.getD i none = some b)
    (hc : arr.getD (i + 1) none = some c) :
    isPeakAt arr ht m v f i =
      (decide (a < b) && decide (c < b) && (domHigh ht b || exceedsUpper b m v f)) := by
  unfold isPeakAt
  rw [ha, hb, hc]

/-- Reducing the low test when all three entries are present. -/
lemma isLowAt_of_values (arr : List (Option ℚ)) (lt : Option ℚ) (m v f : ℚ) (i : ℕ)
    (a b c : ℚ) (ha : arr.getD (i - 1) none = some a) (hb : arr.getD i none = some b)
    (hc : arr.getD (i + 1) none = some c) :
    isLowAt arr lt m v f i =
      (decide (b < a) && decide (b < c) && (domLow lt b || belowLower b m v f)) := by
  unfold isLowAt
  rw [ha, hb, hc]

/-- **C1**: for interior index `i` with non-missing values `a, b, c` at
`i-1, i, i+1`, the detector reports a peak at `i` iff `b > a` and `b > c` and
(the high threshold is defined and exceeded, OR `b` exceeds
`mean + sensitivity * std`), and a low at `i` iff `b < a` and `b < c` and
(the low threshold is defined and undershot, OR `b` is below
`mean - sensitivity * std`); domain and statistical tests combine by OR. -/
theorem detect_peak_low_iff (vs : List (Option ℚ)) (lt ht : Option ℚ) (f : ℚ) (i : ℕ)
    (a b c : ℚ) (hf : 0 ≤ f) (h1 : 1 ≤ i) (h2 : i + 2 ≤ vs.length)
    (ha : vs.getD (i - 1) none = some a) (hb : vs.getD i none = some b)
    (hc : vs.getD (i + 1) none = some c) :
    (i ∈ (detect_peaks_lows vs lt ht f).1 ↔
      (a < b ∧ c < b ∧ ((∃ h, ht = some h ∧ h < b) ∨
        (nanmean vs : ℝ) + f * Real.sqrt (nanvar vs) < (b : ℝ))))
    ∧ (i ∈ (detect_peaks_lows vs lt ht f).2 ↔
      (b < a ∧ b < c ∧ ((∃ h, lt = some h ∧ b < h) ∨
        (b : ℝ) < (nanmean vs : ℝ) - f * Real.sqrt (nanvar vs)))) := by
  have hv := nanvar_nonneg vs
  have hguard : ¬(vs.length < 3 ∨ vs.all Option.isNone = true) := by
    push_neg
    exact ⟨by omega, not_all_isNone_of_getD vs i b hb⟩
  constructor
  · rw [mem_detect_fst, isPeakAt_of_values vs ht _ _ f i a b c ha hb hc]
    simp only [Bool.and_eq_true, Bool.or_eq_true, decide_eq_true_eq]
    rw [domHigh_iff, exceedsUpper_iff_real _ _ _ _ hv hf]
    constructor
    · rintro ⟨-, -, -, ⟨p1, p2⟩, p3⟩
      exact ⟨p1, p2, p3⟩
    · rintro ⟨p1, p2, p3⟩
      exact ⟨hguard, h1, by omega, ⟨p1, p2⟩, p3⟩
  · rw [mem_detect_snd, isLowAt_of_values vs lt _ _ f i a b c ha hb hc]
    simp only [Bool.and_eq_true, Bool.or_eq_true, decide_eq_true_eq]
    rw [domLow_iff, belowLower_iff_real _ _ _ _ hv hf]
    constructor
    · rintro ⟨-, -, -, ⟨p1, p2⟩, p3⟩
      exact ⟨p1, p2, p3⟩
    · rintro ⟨p1, p2, p3⟩
      exact ⟨hguard, h1, by omega, ⟨p1, p2⟩, p3⟩

/-- Witness for `detect_peak_low_iff` at the series `[1, 10, 1]`, index 1. -/
theorem detect_peak_low_iff_witness :
    (1 ∈ (detect_peaks_lows [some 1, some 10, some 1] none none 1).1 ↔
      ((1 : ℚ) < 10 ∧ (1 : ℚ) < 10 ∧ ((∃ h, (none : Option ℚ) = some h ∧ h < 10) ∨
        (nanmean [some 1, some 10, some 1] : ℝ)
          + ((1 : ℚ) : ℝ) * Real.sqrt (nanvar [some 1, some 10, some 1]) < ((10 : ℚ) : ℝ))))
    ∧ (1 ∈ (detect_peaks_lows [some 1, some 10, some 1] none none 1).2 ↔
      ((10 : ℚ) < 1 ∧ (10 : ℚ) < 1 ∧ ((∃ h, (none : Option ℚ) = some h ∧ (10 : ℚ) < h) ∨
        ((10 : ℚ) : ℝ) < (nanmean [some 1, some 10, some 1] : ℝ)
          - ((1 : ℚ) : ℝ) * Real.sqrt (nanvar [some 1, some 10, some 1])))) :=
  detect_peak_low_iff [some 1, some 10, some 1] none none 1 1 1 10 1
    zero_le_one (le_refl 1) (by decide) rfl rfl rfl

/-- **C4**: fewer than 3 elements, or all elements missing, yields two empty
index sequences. -/
theorem detect_short_or_all_missing (vs : List (Option ℚ)) (lt ht : Option ℚ) (f : ℚ)
    (h : vs.length < 3 ∨ vs.all Option.isNone = true) :
    detect_peaks_lows vs lt ht f = ([], []) := by
  rw [detect_peaks_lows_eq, if_pos h]

/-- Witness for `detect_short_or_all_missing`: a 2-element series and an
all-missing series. -/
theorem detect_short_or_all_missing_witness :
    detect_peaks_lows [some 5, some 7] none none 1 = ([], []) ∧
    detect_peaks_lows [none, none, none, none] none none 1 = ([], []) :=
  ⟨detect_short_or_all_missing _ none none 1 (Or.inl (by decide)),
   detect_short_or_all_missing _ none none 1 (Or.inr (by decide))⟩

/-- An index cannot pass both the peak test and the low test. -/
lemma not_isPeakAt_and_isLowAt (arr : List (Option ℚ)) (lt ht : Option ℚ) (m v f : ℚ) (i : ℕ)
    (hp : isPeakAt arr ht m v f i = true) (hl : isLowAt arr lt m v f i = true) : False := by
  unfold isPeakAt at hp
  unfold isLowAt at hl
  cases hA : arr.getD (i - 1) none <;> rw [hA] at hp hl
  · simp at hp
  · cases hB : arr.getD i none <;> rw [hB] at hp hl
    · simp at hp
    · cases hC : arr.getD (i + 1) none <;> rw [hC] at hp hl
      · simp at hp
      · simp only [Bool.and_eq_true, decide_eq_true_eq] at hp hl
        linarith [hp.1.1, hl.1.1]

/-- **C5**: returned peak and low indices are interior (`1 ≤ i ≤ n-2`), the
two index sets of one call are disjoint, and both sequences ascend. -/
theorem detect_indices_interior_disjoint_sorted (vs : List (Option ℚ)) (lt ht : Option ℚ)
    (f : ℚ) :
    (∀ i ∈ (detect_peaks_lows vs lt ht f).1, 1 ≤ i ∧ i + 2 ≤ vs.length)
    ∧ (∀ i ∈ (detect_peaks_lows vs lt ht f).2, 1 ≤ i ∧ i + 2 ≤ vs.length)
    ∧ (∀ i, i ∈ (detect_peaks_lows vs lt ht f).1 → i ∉ (detect_peaks_lows vs lt ht f).2)
    ∧ ((detect_peaks_lows vs lt ht f).1).Pairwise (fun i j => i < j)
    ∧ ((detect_peaks_lows vs lt ht f).2).Pairwise (fun i j => i < j) := by
  refine ⟨?_, ?_, ?_, ?_, ?_⟩
  · intro i hi
    rw [mem_detect_fst] at hi
    obtain ⟨-, hi1, hi2, -⟩ := hi
    exact ⟨hi1, by omega⟩
  · intro i hi
    rw [mem_detect_snd] at hi
    obtain ⟨-, hi1, hi2, -⟩ := hi
    exact ⟨hi1, by omega⟩
  · intro i hp hl
    rw [mem_detect_fst] at hp
    rw [mem_detect_snd] at hl
    exact not_isPeakAt_and_isLowAt vs lt ht _ _ f i hp.2.2.2 hl.2.2.2
  · rw [detect_peaks_lows_eq]
    by_cases h : vs.length < 3 ∨ vs.all Option.isNone = true
    · rw [if_pos h]
      exact List.Pairwise.nil
    · rw [if_neg h]
      exact (List.pairwise_lt_range' 1 (vs.length - 2)).filter _
  · rw [detect_peaks_lows_eq]
    by_cases h : vs.length < 3 ∨ vs.all Option.isNone = true
    · rw [if_pos h]
      exact List.Pairwise.nil
    · rw [if_neg h]
      exact (List.pairwise_lt_range' 1 (vs.length - 2)).filter _

/-- Witness for `detect_indices_interior_disjoint_sorted`: on `[1, 10, 1]`
index 1 is a peak, hence not a low. -/
theorem detect_indices_interior_disjoint_sorted_witness :
    1 ∈ (detect_peaks_lows [some 1, some 10, some 1] none none 1).1 ∧
    1 ∉ (detect_peaks_lows [some 1, some 10, some 1] none none 1).2 := by
  have hmem : 1 ∈ (detect_peaks_lows [some 1, some 10, some 1] none none 1).1 := by
    norm_num [detect_peaks_lows, isPeakAt, isLowAt, nanmean, nanvar, nonMissing,
      domHigh, domLow, exceedsUpper, belowLower, List.range'_succ, List.filterMap_cons]
  exact ⟨hmem,
    (detect_indices_interior_disjoint_sorted [some 1, some 10, some 1] none none 1).2.2.1 1 hmem⟩

/-- The statistical upper test is antitone in the sensitivity factor. -/
lemma exceedsUpper_mono (b m v f1 f2 : ℚ) (hv : 0 ≤ v) (hf1 : 0 ≤ f1) (h12 : f1 ≤ f2)
    (h : exceedsUpper b m v f2 = true) : exceedsUpper b m v f1 = true := by
  unfold exceedsUpper at h ⊢
  simp only [Bool.and_eq_true, decide_eq_true_eq] at h ⊢
  refine ⟨h.1, lt_of_le_of_lt ?_ h.2⟩
  exact mul_le_mul_of_nonneg_right (pow_le_pow_left₀ hf1 h12 2) hv

/-- The statistical lower test is antitone in the sensitivity factor. -/
lemma belowLower_mono (b m v f1 f2 : ℚ) (hv : 0 ≤ v) (hf1 : 0 ≤ f1) (h12 : f1 ≤ f2)
    (h : belowLower b m v f2 = true) : belowLower b m v f1 = true := by
  unfold belowLower at h ⊢
  simp only [Bool.and_eq_true, decide_eq_true_eq] at h ⊢
  refine ⟨h.1, lt_of_le_of_lt ?_ h.2⟩
  exact mul_le_mul_of_nonneg_right (pow_le_pow_left₀ hf1 h12 2) hv

/-- The whole peak test is antitone in the sensitivity factor. -/
lemma isPeakAt_mono (arr : List (Option ℚ)) (ht : Option ℚ) (m v f1 f2 : ℚ) (i : ℕ)
    (hv : 0 ≤ v) (hf1 : 0 ≤ f1) (h12 : f1 ≤ f2)
    (h : isPeakAt arr ht m v f2 i = true) : isPeakAt arr ht m v f1 i = true := by
  unfold isPeakAt at h ⊢
  cases hA : arr.getD (i - 1) none <;> rw [hA] at h
  · simp at h
  · cases hB : arr.getD i none <;> rw [hB] at h
    · simp at h
    · cases hC : arr.getD (i + 1) none <;> rw [hC] at h
      · simp at h
      · simp only [Bool.and_eq_true, Bool.or_eq_true] at h ⊢
        refine ⟨h.1, ?_⟩
        rcases h.2 with hd | hs
        · exact Or.inl hd
        · exact Or.inr (exceedsUpper_mono _ _ _ _ _ hv hf1 h12 hs)

/-- The whole low test is antitone in the sensitivity factor. -/
lemma isLowAt_mono (arr : List (Option ℚ)) (lt : Option ℚ) (m v f1 f2 : ℚ) (i : ℕ)
    (hv : 0 ≤ v) (hf1 : 0 ≤ f1) (h12 : f1 ≤ f2)
    (h : isLowAt arr lt m v f2 i = true) : isLowAt arr lt m v f1 i = true := by
  unfold isLowAt at h ⊢
  cases hA : arr.getD (i - 1) none <;> rw [hA] at h
  · simp at h
  · cases hB : arr.getD i none <;> rw [hB] at h
    · simp at h
    · cases hC : arr.getD (i + 1) none <;> rw [hC] at h
      · simp at h
      · simp only [Bool.and_eq_true, Bool.or_eq_true] at h ⊢
        refine ⟨h.1, ?_⟩
        rcases h.2 with hd | hs
        · exact Or.inl hd
        · exact Or.inr (belowLower_mono _ _ _ _ _ hv hf1 h12 hs)

/-- **C10**: detection is antitone in the sensitivity parameter — raising
the factor can only remove extrema, never add them. -/
theorem detect_antitone_in_sensitivity (vs : List (Option ℚ)) (lt ht : Option ℚ)
    (f1 f2 : ℚ) (hf1 : 0 < f1) (h12 : f1 ≤ f2) :
    (∀ i ∈ (detect_peaks_lows vs lt ht f2).1, i ∈ (detect_peaks_lows vs lt ht f1).1)
    ∧ (∀ i ∈ (detect_peaks_lows vs lt ht f2).2, i ∈ (detect_peaks_lows vs lt ht f1).2) := by
  have hv := nanvar_nonneg vs
  constructor <;> intro i hi
  · rw [mem_detect_fst] at hi ⊢
    exact ⟨hi.1, hi.2.1, hi.2.2.1,
      isPeakAt_mono vs ht _ _ f1 f2 i hv hf1.le h12 hi.2.2.2⟩
  · rw [mem_detect_snd] at hi ⊢
    exact ⟨hi.1, hi.2.1, hi.2.2.1,
      isLowAt_mono vs lt _ _ f1 f2 i hv hf1.le h12 hi.2.2.2⟩

/-- Witness for `detect_antitone_in_sensitivity`: on `[1,1,1,100,1,1,1]`
index 3 is a peak at sensitivity 2, hence also at sensitivity 1. -/
theorem detect_antitone_in_sensitivity_witness :
    3 ∈ (detect_peaks_lows [some 1, some 1, some 1, some 100, some 1, some 1, some 1]
          none none 2).1 ∧
    3 ∈ (detect_peaks_lows [some 1, some 1, some 1, some 100, some 1, some 1, some 1]
          none none 1).1 := by
  have hmem : 3 ∈ (detect_peaks_lows
      [some 1, some 1, some 1, some 100, some 1, some 1, some 1] none none 2).1 := by
    norm_num [detect_peaks_lows, isPeakAt, isLowAt, nanmean, nanvar, nonMissing,
      domHigh, domLow, exceedsUpper, belowLower, List.range'_succ, List.filterMap_cons]
  exact ⟨hmem,
    (detect_antitone_in_sensitivity
      [some 1, some 1, some 1, some 100, some 1, some 1, some 1] none none 1 2
      zero_lt_one one_le_two).1 3 hmem⟩

/-- **C3** (amended): on `[1, 10, 1, 10, 1]` with no domain thresholds and
sensitivity 1, the detector returns peaks exactly at indices 1 and 3 and an
empty low list — the value 1 at index 2 is not below
`mean - std = 4.6 - sqrt(19.44) ≈ 0.19`. -/
theorem detect_example_series :
    detect_peaks_lows [some 1, some 10, some 1, some 10, some 1] none none 1
      = ([1, 3], []) := by
  norm_num [detect_peaks_lows, isPeakAt, isLowAt, nanmean, nanvar, nonMissing,
    domHigh, domLow, exceedsUpper, belowLower, List.range'_succ, List.filterMap_cons]

/-- **C3** counterexample: the claimed low at index 2 is not reported. -/
theorem detect_example_series_no_low :
    2 ∉ (detect_peaks_lows [some 1, some 10, some 1, some 10, some 1] none none 1).2 := by
  norm_num [detect_peaks_lows, isPeakAt, isLowAt, nanmean, nanvar, nonMissing,
    domHigh, domLow, exceedsUpper, belowLower, List.range'_succ, List.filterMap_cons]

/-- **C2** (code bug): the catalog stores the key "lockHookTime" in mixed
case, but the lookup lowercases the query and matches it literally against
the keys, so looking up the very name stored in the catalog misses and
returns `(none, none)` instead of the stored pair `(0.3, none)`.  The same
happens for every mixed-case key (5 of the 6 entries). -/
theorem thresholdLookup_misses_mixedCase_key :
    ("lockHookTime", ((some (3/10) : Option ℚ), (none : Option ℚ))) ∈ KPI_THRESHOLDS ∧
    thresholdLookup "lockHookTime" = (none, none) := by
  constructor
  · simp [KPI_THRESHOLDS]
  · decide

/-- The report loop in closed form: filter the actionable summaries, keep
input order, build one row each. -/
lemma report_rows_foldl (summaries : List GroupSummary) (vRat : ℚ) (acc : List InsightRow) :
    summaries.foldl
      (fun acc rec =>
        if ((rec.peaks : ℚ) + rec.lows > (rec.rows : ℚ) * vRat) then
          acc ++ [⟨rec.kpi, rec.floor, actionText,
                   solutionGet ((rec.peaks + rec.lows) % 3 + 1)⟩]
        else acc) acc
    = acc ++ (summaries.filter
          (fun s => decide ((s.peaks : ℚ) + s.lows > (s.rows : ℚ) * vRat))).map
        (fun s => ⟨s.kpi, s.floor, actionText, solutionGet ((s.peaks + s.lows) % 3 + 1)⟩) := by
  induction summaries generalizing acc with
  | nil => simp
  | cons x xs ih =>
    simp only [List.foldl_cons, List.filter_cons]
    by_cases hx : ((x.peaks : ℚ) + x.lows > (x.rows : ℚ) * vRat)
    · rw [if_pos hx, ih]
      simp [hx]
    · rw [if_neg hx, ih]
      simp [hx]

/-- The remedy lookup succeeds for every code of the form `k % 3 + 1`. -/
lemma solutionGet_mod_isSome (k : ℕ) : (solutionGet (k % 3 + 1)).isSome = true := by
  have h3 : k % 3 + 1 = 1 ∨ k % 3 + 1 = 2 ∨ k % 3 + 1 = 3 := by omega
  rcases h3 with h | h | h <;> rw [h] <;> decide

/-- **C9**: the insight report is exactly the actionable summaries in input
order, each row carrying the remedy looked up at code
`((peaks + lows) mod 3) + 1` in the fixed 3-entry table; the lookup always
succeeds. -/
theorem report_rows_filter_map (summaries : List GroupSummary) (vRat : ℚ) :
    report_rows summaries vRat =
      (summaries.filter
          (fun s => decide ((s.peaks : ℚ) + s.lows > (s.rows : ℚ) * vRat))).map
        (fun s => ⟨s.kpi, s.floor, actionText, solutionGet ((s.peaks + s.lows) % 3 + 1)⟩)
    ∧ ∀ row ∈ report_rows summaries vRat, row.remedy.isSome = true := by
  have heq := report_rows_foldl summaries vRat []
  constructor
  · unfold report_rows
    simpa using heq
  · intro row hrow
    unfold report_rows at hrow
    rw [heq] at hrow
    simp only [List.nil_append, List.mem_map] at hrow
    obtain ⟨s, -, rfl⟩ := hrow
    exact solutionGet_mod_isSome (s.peaks + s.lows)

/-- Witness for `report_rows_filter_map`: the single actionable summary
(1 peak, 1 low, 5 rows) yields a row whose remedy is defined. -/
theorem report_rows_filter_map_witness :
    (⟨"doorfriction", 2, actionText, solutionGet ((1 + 1) % 3 + 1)⟩ : InsightRow)
      ∈ report_rows [⟨"doorfriction", 2, 1, 1, 5⟩] (1/5) ∧
    ((⟨"doorfriction", 2, actionText, solutionGet ((1 + 1) % 3 + 1)⟩ : InsightRow)).remedy.isSome
      = true := by
  have hmem : (⟨"doorfriction", 2, actionText, solutionGet ((1 + 1) % 3 + 1)⟩ : InsightRow)
      ∈ report_rows [⟨"doorfriction", 2, 1, 1, 5⟩] (1/5) := by
    norm_num [report_rows]
  exact ⟨hmem, (report_rows_filter_map [⟨"doorfriction", 2, 1, 1, 5⟩] (1/5)).2 _ hmem⟩

/-- **C8** counterexample: a summary with zero rows and one peak IS marked
actionable by the loop (`1 + 0 > 0 * 0.2`) — there is no zero-row guard. -/
theorem report_rows_zero_rows_actionable :
    (⟨"doorfriction", 1, 1, 0, 0⟩ : GroupSummary).rows = 0 ∧
    report_rows [⟨"doorfriction", 1, 1, 0, 0⟩] (1/5) ≠ [] := by
  refine ⟨rfl, ?_⟩
  norm_num [report_rows]

/-- **C8** (amended): a summary is marked actionable iff
`peaks + lows > rows * ratio`; the classifier has no defensive zero-row
guard — a zero-row summary is actionable exactly when it has at least one
extremum. -/
theorem report_rows_actionable_iff (s : GroupSummary) (vRat : ℚ) :
    (report_rows [s] vRat ≠ [] ↔ (s.rows : ℚ) * vRat < (s.peaks : ℚ) + s.lows)
    ∧ (s.rows = 0 → (report_rows [s] vRat ≠ [] ↔ 1 ≤ s.peaks + s.lows)) := by
  have hbase : report_rows [s] vRat ≠ [] ↔ (s.rows : ℚ) * vRat < (s.peaks : ℚ) + s.lows := by
    unfold report_rows
    simp only [List.foldl_cons, List.foldl_nil]
    by_cases hx : ((s.peaks : ℚ) + s.lows > (s.rows : ℚ) * vRat)
    · rw [if_pos hx]
      simp [hx]
    · rw [if_neg hx]
      simp [hx]
  refine ⟨hbase, fun hz => ?_⟩
  rw [hbase, hz]
  have hcast : (s.peaks : ℚ) + s.lows = ((s.peaks + s.lows : ℕ) : ℚ) := by push_cast; ring
  rw [hcast]
  simp only [Nat.cast_zero, zero_mul, Nat.cast_pos]
  omega

/-- The ascending list of distinct floors of a KPI's filtered rows
(`sorted(df_kpi[floor_col].dropna().unique())`). -/
def floorsOf (ms : List Measurement) (k : String) : List ℤ :=
  ((ms.filter (fun r => strLower r.kpi == strLower k)).map (fun r => r.floor)).dedup.insertionSort
    (fun a b => a ≤ b)

/-- One (KPI, floor) group's chronologically sorted rows. -/
def groupRows (ms : List Measurement) (k : String) (fl : ℤ) : List Measurement :=
  ((ms.filter (fun r => strLower r.kpi == strLower k)).filter
      (fun r => r.floor == fl)).insertionSort (fun r1 r2 => r1.ts ≤ r2.ts)

/-- The summary the aggregation loop appends for one (KPI, floor) group. -/
def groupSummaryOf (ms : List Measurement) (f : ℚ) (k : String) (fl : ℤ) : GroupSummary :=
  let lh := thresholdLookup k
  let pl := detect_peaks_lows ((groupRows ms k fl).map (fun r => r.ave)) lh.1 lh.2 f
  ⟨k, fl, pl.1.length, pl.2.length, (groupRows ms k fl).length⟩

/-- The per-KPI loop body in closed form: one summary per distinct floor,
floors ascending. -/
lemma kpiBlock_eq (ms : List Measurement) (f : ℚ) (k : String) :
    kpiBlock ms f k = (floorsOf ms k).map (groupSummaryOf ms f k) := by
  unfold kpiBlock floorsOf groupSummaryOf groupRows
  by_cases h : (ms.filter (fun r => strLower r.kpi == strLower k)).isEmpty = true
  · rw [if_pos h]
    rw [List.isEmpty_iff] at h
    rw [h]
    rfl
  · rw [if_neg h]

/-- A floor appears in `floorsOf` iff some matching row has it. -/
lemma mem_floorsOf (ms : List Measurement) (k : String) (fl : ℤ) :
    fl ∈ floorsOf ms k ↔ ∃ r ∈ ms, strLower r.kpi = strLower k ∧ r.floor = fl := by
  unfold floorsOf
  rw [List.mem_insertionSort, List.mem_dedup, List.mem_map]
  constructor
  · rintro ⟨r, hr, rfl⟩
    rw [List.mem_filter] at hr
    exact ⟨r, hr.1, by simpa using hr.2, rfl⟩
  · rintro ⟨r, hr, hk, rfl⟩
    exact ⟨r, List.mem_filter.2 ⟨hr, by simpa using hk⟩, rfl⟩

/-- The floors of one KPI block are strictly ascending. -/
lemma pairwise_floorsOf (ms : List Measurement) (k : String) :
    (floorsOf ms k).Pairwise (fun a b => a < b) := by
  unfold floorsOf
  have hs : List.Sorted (fun a b : ℤ => a ≤ b)
      (((ms.filter (fun r => strLower r.kpi == strLower k)).map
          (fun r => r.floor)).dedup.insertionSort (fun a b => a ≤ b)) :=
    List.sorted_insertionSort _ _
  have hn : (((ms.filter (fun r => strLower r.kpi == strLower k)).map
      (fun r => r.floor)).dedup.insertionSort (fun a b => a ≤ b)).Nodup :=
    (List.Perm.nodup_iff (List.perm_insertionSort _ _)).2 (List.nodup_dedup _)
  exact List.Sorted.lt_of_le hs hn

/-- Every summary of a KPI block carries that KPI's selection name. -/
lemma kpi_of_mem_kpiBlock (ms : List Measurement) (f : ℚ) (k : String) (s : GroupSummary)
    (hs : s ∈ kpiBlock ms f k) : s.kpi = k := by
  rw [kpiBlock_eq, List.mem_map] at hs
  obtain ⟨fl, -, rfl⟩ := hs
  rfl

/-- In a list with no duplicates, earlier elements have smaller indices. -/
lemma pairwise_indexOf_lt (l : List String) (h : l.Nodup) :
    l.Pairwise (fun a b => l.indexOf a < l.indexOf b) := by
  induction l with
  | nil => exact List.Pairwise.nil
  | cons x xs ih =>
    rw [List.nodup_cons] at h
    refine List.Pairwise.cons ?_ ?_
    · intro b hb
      have hbx : x ≠ b := fun e => h.1 (e ▸ hb)
      rw [List.indexOf_cons_self, List.indexOf_cons_ne _ hbx]
      omega
    · have hxs := ih h.2
      refine hxs.imp_of_mem ?_
      intro a b ha hb hab
      have hax : x ≠ a := fun e => h.1 (e ▸ ha)
      have hbx : x ≠ b := fun e => h.1 (e ▸ hb)
      rw [List.indexOf_cons_ne _ hax, List.indexOf_cons_ne _ hbx]
      omega

/-- **C7**: with a case-insensitively duplicate-free KPI selection, the
aggregation emits summaries ordered by KPI selection order then floor
ascending (hence one summary per distinct pair), the (KPI, floor) pairs are
pairwise distinct, and a pair appears iff the selected KPI has at least one
matching row with that floor. -/
theorem kpi_summary_groups (ms : List Measurement) (sel : List String) (f : ℚ)
    (hsel : (sel.map strLower).Nodup) :
    (kpi_summary ms sel f).Pairwise
      (fun s1 s2 => sel.indexOf s1.kpi < sel.indexOf s2.kpi ∨
        (s1.kpi = s2.kpi ∧ s1.floor < s2.floor))
    ∧ ((kpi_summary ms sel f).map (fun s => (s.kpi, s.floor))).Nodup
    ∧ ∀ k fl, (∃ s ∈ kpi_summary ms sel f, s.kpi = k ∧ s.floor = fl) ↔
        (k ∈ sel ∧ ∃ r ∈ ms, strLower r.kpi = strLower k ∧ r.floor = fl) := by
  have hpair : (kpi_summary ms sel f).Pairwise
      (fun s1 s2 => sel.indexOf s1.kpi < sel.indexOf s2.kpi ∨
        (s1.kpi = s2.kpi ∧ s1.floor < s2.floor)) := by
    unfold kpi_summary
    rw [List.pairwise_flatMap]
    constructor
    · intro k hk
      rw [kpiBlock_eq]
      refine List.Pairwise.map _ ?_ (pairwise_floorsOf ms k)
      intro a b hab
      exact Or.inr ⟨rfl, hab⟩
    · have hnd : sel.Nodup := List.Nodup.of_map _ hsel
      refine (pairwise_indexOf_lt sel hnd).imp_of_mem ?_
      intro k1 k2 h1 h2 hlt x hx y hy
      have hx1 : x.kpi = k1 := kpi_of_mem_kpiBlock ms f k1 x hx
      have hy1 : y.kpi = k2 := kpi_of_mem_kpiBlock ms f k2 y hy
      left
      rw [hx1, hy1]
      exact hlt
  refine ⟨hpair, ?_, ?_⟩
  · refine List.Pairwise.map _ ?_ hpair
    intro a b hab heq
    rw [Prod.mk.injEq] at heq
    rcases hab with hi | ⟨-, hf⟩
    · rw [heq.1] at hi
      omega
    · rw [heq.2] at hf
      omega
  · intro k fl
    constructor
    · rintro ⟨s, hs, hk, hfl⟩
      unfold kpi_summary at hs
      rw [List.mem_flatMap] at hs
      obtain ⟨k1, hk1, hsk⟩ := hs
      rw [kpiBlock_eq, List.mem_map] at hsk
      obtain ⟨fl1, hfl1, rfl⟩ := hsk
      have hk1k : k1 = k := hk
      have hfl1fl : fl1 = fl := hfl
      subst hk1k
      subst hfl1fl
      exact ⟨hk1, (mem_floorsOf ms k1 fl1).1 hfl1⟩
    · rintro ⟨hksel, r, hr, hrk, rfl⟩
      refine ⟨groupSummaryOf ms f k r.floor, ?_, rfl, rfl⟩
      unfold kpi_summary
      rw [List.mem_flatMap]
      refine ⟨k, hksel, ?_⟩
      rw [kpiBlock_eq, List.mem_map]
      exact ⟨r.floor, (mem_floorsOf ms k r.floor).2 ⟨r, hr, hrk, rfl⟩, rfl⟩

/-- Witness for `report_rows_actionable_iff` at a zero-row, one-peak summary. -/
theorem report_rows_actionable_iff_witness :
    report_rows [⟨"doorfriction", 3, 1, 0, 0⟩] (1/5) ≠ [] ↔ 1 ≤ 1 + 0 :=
  (report_rows_actionable_iff ⟨"doorfriction", 3, 1, 0, 0⟩ (1/5)).2 rfl

/-- Witness for `kpi_summary_groups` on a one-row dataset and a one-KPI
selection. -/
theorem kpi_summary_groups_witness :
    (kpi_summary [⟨0, "doorfriction", 2, 0, some 1⟩] ["doorfriction"] 1).Pairwise
      (fun s1 s2 => ["doorfriction"].indexOf s1.kpi < ["doorfriction"].indexOf s2.kpi ∨
        (s1.kpi = s2.kpi ∧ s1.floor < s2.floor))
    ∧ ((kpi_summary [⟨0, "doorfriction", 2, 0, some 1⟩] ["doorfriction"] 1).map
        (fun s => (s.kpi, s.floor))).Nodup
    ∧ ∀ k fl, (∃ s ∈ kpi_summary [⟨0, "doorfriction", 2, 0, some 1⟩] ["doorfriction"] 1,
          s.kpi = k ∧ s.floor = fl) ↔
        (k ∈ ["doorfriction"] ∧ ∃ r ∈ [(⟨0, "doorfriction", 2, 0, some 1⟩ : Measurement)],
          strLower r.kpi = strLower k ∧ r.floor = fl) :=
  kpi_summary_groups [⟨0, "doorfriction", 2, 0, some 1⟩] ["doorfriction"] 1 (by decide)
